import Mathlib

/-!
Shallow embedding of the DL/T 645-2007 smart-meter protocol code
(`src/dlt645_read.py`, `src/dlt645_read_1.py`, `src/dlt645_single_phase.py`).

Conventions of the embedding:
* Python `bytes` values are `List Nat` whose members are intended to lie in
  `[0, 256)`; the `bytes(...)` constructor, which raises `ValueError` on an
  out-of-range element, is modelled by `bytesOf : List Int → Option (List Nat)`.
* Fallible Python code (functions that can raise) returns `Option` / `Except`.
* Python `float(...)` applied to the decimal strings produced by the decoders
  is modelled exactly over `ℚ` (the decoded quantities are decimal numerals;
  binary floating-point rounding is outside the scope of the claims).
-/

/-- Frame start marker `0x68` (`FRAME_START` in every source file). -/
def FRAME_START : Nat := 0x68

/-- Frame end marker `0x16` (`FRAME_END`). -/
def FRAME_END : Nat := 0x16

/-- Model of the Python `bytes(listOfInts)` constructor: it checks that every
element is in `[0, 256)` and raises `ValueError` (here: `none`) otherwise. -/
def bytesOf (xs : List Int) : Option (List Nat) :=
  if xs.all (fun x => decide (0 ≤ x) && decide (x < 256)) then
    some (xs.map Int.toNat)
  else none

/-- `DLT645Protocol._add_33h`: `bytes([b + 0x33 for b in data])`.  The source
has no `% 256`, so a byte `≥ 0xCD` makes `bytes(...)` raise. -/
def add_33h (data : List Nat) : Option (List Nat) :=
  bytesOf (data.map (fun b : Nat => (b : Int) + 0x33))

/-- `DLT645Protocol._sub_33h`: `bytes([b - 0x33 for b in data])`; a byte
`< 0x33` makes `bytes(...)` raise. -/
def sub_33h (data : List Nat) : Option (List Nat) :=
  bytesOf (data.map (fun b : Nat => (b : Int) - 0x33))

/-- `DLT645Protocol._calculate_checksum`: `sum(data) & 0xFF`. -/
def checksum (data : List Nat) : Nat := data.sum % 256

/-- The four little-endian base-256 digits of `n` (the value of Python
`n.to_bytes(4, byteorder='little')` when it succeeds). -/
def le4 (n : Nat) : List Nat :=
  [n % 256, n / 256 % 256, n / 65536 % 256, n / 16777216 % 256]

/-- Python `n.to_bytes(4, byteorder='little')`, which raises `OverflowError`
for `n ≥ 2^32`. -/
def toBytesLE4 (n : Nat) : Option (List Nat) :=
  if n < 2 ^ 32 then some (le4 n) else none

/-- Python `int.from_bytes(l, byteorder='little')`. -/
def fromBytesLE (l : List Nat) : Nat :=
  l.foldr (fun b acc => b + 256 * acc) 0

/-- `DLT645Protocol._build_frame` from `src/dlt645_read.py` (lines 84-144):
`68H + A0~A5 + 68H + C + L + [DI0~DI3] + [data] + CS + 16H`, with the data
field masked by `_add_33h`.  `bytearray.append` raises for a value `≥ 256`
(control code or length byte), `to_bytes` raises for an identifier `≥ 2^32`,
and `_add_33h` raises for a data-field byte `≥ 0xCD`; any raise is `none`. -/
def build_frame (address : List Nat) (control_code : Nat)
    (data_id : Option Nat) (data : Option (List Nat)) : Option (List Nat) :=
  if 256 ≤ control_code then none
  else
    match (match data_id with
           | some di => toBytesLE4 di
           | none => some []) with
    | none => none
    | some diBytes =>
      let field0 := diBytes ++ data.getD []
      match (if field0 ≠ [] then add_33h field0 else some field0) with
      | none => none
      | some field =>
        if 256 ≤ field.length then none
        else
          let front := FRAME_START :: address ++
            FRAME_START :: control_code :: field.length :: field
          some (front ++ [checksum front, FRAME_END])

/-- The distinct failure messages of `DLT645Protocol._parse_response`
(`src/dlt645_read.py` lines 146-196); each is a Python `ValueError`.
`UnmaskValueError` is the `ValueError` raised by `_sub_33h` itself when a
data-field byte is `< 0x33` (the source unmasks without `% 256`). -/
inductive ParseError where
  | FrameTooShort
  | InvalidFrameMarkers
  | InvalidSecondStart
  | LengthMismatch
  | ChecksumMismatch
  | UnmaskValueError
deriving DecidableEq

/-- The dictionary returned by `_parse_response`. -/
structure ParsedFrame where
  address : List Nat
  control : Nat
  data_id : Option Nat
  data : List Nat
  raw : List Nat
deriving DecidableEq

/-- `DLT645Protocol._parse_response` from `src/dlt645_read.py` (lines
146-196): marker, length and checksum validation, then unmasking and
identifier extraction. -/
def parse_response (response : List Nat) : Except ParseError ParsedFrame :=
  if response.length < 12 then .error .FrameTooShort
  else if response.getD 0 0 ≠ FRAME_START ∨
          response.getD (response.length - 1) 0 ≠ FRAME_END then
    .error .InvalidFrameMarkers
  else if response.getD 7 0 ≠ FRAME_START then .error .InvalidSecondStart
  else
    let length := response.getD 9 0
    if response.length ≠ 12 + length then .error .LengthMismatch
    else
      let data_field := (response.drop 10).take length
      if response.getD (10 + length) 0 ≠ checksum (response.take (10 + length)) then
        .error .ChecksumMismatch
      else
        match (if data_field ≠ [] then sub_33h data_field else some data_field) with
        | none => .error .UnmaskValueError
        | some df =>
          if 4 ≤ df.length then
            .ok ⟨(response.drop 1).take 6, response.getD 8 0,
                 some (fromBytesLE (df.take 4)), df.drop 4, response⟩
          else
            .ok ⟨(response.drop 1).take 6, response.getD 8 0, none, df, response⟩

/-- Numeric value of one hexadecimal character, as accepted by Python
`int(s, 16)` for the character material reachable in this code base. -/
def hexVal (ch : Char) : Option Nat :=
  if '0' ≤ ch ∧ ch ≤ '9' then some (ch.toNat - 48)
  else if 'a' ≤ ch ∧ ch ≤ 'f' then some (ch.toNat - 87)
  else if 'A' ≤ ch ∧ ch ≤ 'F' then some (ch.toNat - 55)
  else none

/-- Python `int(two-character-string, 16)`; a `ValueError` on a non-hex
character becomes `none`. -/
def parsePair (c1 c2 : Char) : Option Nat := do
  pure (16 * (← hexVal c1) + (← hexVal c2))

/-- Python `str.zfill(12)`: left-pad with `'0'` to length 12 (no change for
longer strings). -/
def zfill12 (s : List Char) : List Char :=
  List.replicate (12 - s.length) '0' ++ s

/-- `DLT645Protocol._format_address` (`src/dlt645_read.py` lines 61-70):
zero-fill to 12 characters, parse the six two-character pairs at indices
0,2,…,10 with `int(_, 16)`, and reverse the resulting 6 bytes. -/
def format_address (addr : List Char) : Option (List Nat) :=
  match (zfill12 addr).take 12 with
  | [c0, c1, c2, c3, c4, c5, c6, c7, c8, c9, c10, c11] => do
    let b0 ← parsePair c0 c1
    let b1 ← parsePair c2 c3
    let b2 ← parsePair c4 c5
    let b3 ← parsePair c6 c7
    let b4 ← parsePair c8 c9
    let b5 ← parsePair c10 c11
    pure [b5, b4, b3, b2, b1, b0]
  | _ => none

/-- One character of the Python strings built by the value decoders: a
hexadecimal digit rendered by `f"{byte:02X}"`, or the inserted point. -/
inductive SChar where
  | digit (d : Nat)
  | dot
deriving DecidableEq

/-- Decimal-digit test: the characters `0`-`9` (hex digit values below 10). -/
def isDecDigit : SChar → Bool
  | .digit d => decide (d < 10)
  | .dot => false

/-- The uppercase hex character `E` (digit value 14), which Python `float`
accepts as a scientific-notation exponent marker. -/
def isEChar (c : SChar) : Bool := decide (c = SChar.digit 14)

/-- Value of a decimal digit string (dots are skipped; only applied to runs
of decimal digits). -/
def digitsVal (s : List SChar) : Nat :=
  s.foldl (fun a c => match c with | .digit d => 10 * a + d | .dot => a) 0

/-- Mantissa part of the Python `float(...)` grammar over the reachable
alphabet: decimal digits and at most one decimal point, with at least one
digit. -/
def mantissa (s : List SChar) : Option ℚ :=
  if s.all (fun c => isDecDigit c || decide (c = SChar.dot)) &&
     decide (s.countP (fun c => decide (c = SChar.dot)) ≤ 1) &&
     s.any isDecDigit then
    let pre := s.takeWhile (fun c => !decide (c = SChar.dot))
    let post := (s.dropWhile (fun c => !decide (c = SChar.dot))).tail
    some ((digitsVal pre : ℚ) + (digitsVal post : ℚ) / 10 ^ post.length)
  else none

/-- Python `float(string)` restricted to the strings reachable here
(uppercase hex digits with at most one inserted point): a valid mantissa,
optionally followed by an exponent introduced by the character `E` (hex
digit 14) with a non-empty decimal digit exponent.  `none` is `ValueError`. -/
def pyFloat (s : List SChar) : Option ℚ :=
  match s.countP isEChar with
  | 0 => mantissa s
  | 1 =>
    match mantissa (s.takeWhile (fun c => !isEChar c)) with
    | none => none
    | some q =>
      let e := (s.dropWhile (fun c => !isEChar c)).tail
      if e ≠ [] ∧ e.all isDecDigit then some (q * 10 ^ digitsVal e) else none
  | _ => none

/-- The digit string `"".join(f"{byte:02X}" for byte in reversed(data))`:
bytes in reverse order, two hex digit characters per byte. -/
def renderBytes (data : List Nat) : List SChar :=
  data.reverse.flatMap (fun b => [.digit (b / 16), .digit (b % 16)])

/-- The slice assembly `value_str[:-dp] + "." + value_str[-dp:]` guarded by
`len(value_str) >= dp`, as written in each fixed-width decoder (`dp ≥ 1` at
every use site). -/
def insertDot (dp : Nat) (s : List SChar) : List SChar :=
  if dp ≤ s.length then
    s.take (s.length - dp) ++ SChar.dot :: s.drop (s.length - dp)
  else s

/-- `DLT645Protocol.decode_generic_bcd` (`src/dlt645_read_1.py` lines
296-311, identical in `src/dlt645_single_phase.py`): reversed digit string,
point inserted when `decimal_places > 0 and len(value_str) >= decimal_places`,
then `float(...)` guarded against `""` and `"."`. -/
def decode_generic_bcd (data : List Nat) (decimal_places : Nat) : Option ℚ :=
  if data = [] then none
  else
    let s := renderBytes data
    let t := if 0 < decimal_places then insertDot decimal_places s else s
    if t = [] ∨ t = [SChar.dot] then none else pyFloat t

/-- `DLT645Protocol.decode_energy` (`src/dlt645_read.py` lines 298-316):
4 BCD bytes, decimal point before the last 2 digits. -/
def decode_energy (data : List Nat) : Option ℚ :=
  if data.length < 4 then none
  else pyFloat (insertDot 2 (renderBytes (data.take 4)))

/-- `DLT645Protocol.decode_voltage` (lines 318-334): 2 bytes, 1 place. -/
def decode_voltage (data : List Nat) : Option ℚ :=
  if data.length < 2 then none
  else pyFloat (insertDot 1 (renderBytes (data.take 2)))

/-- `DLT645Protocol.decode_current` (lines 336-352): 3 bytes, 3 places. -/
def decode_current (data : List Nat) : Option ℚ :=
  if data.length < 3 then none
  else pyFloat (insertDot 3 (renderBytes (data.take 3)))

/-- `DLT645Protocol.decode_power` (lines 354-370): 3 bytes, 4 places. -/
def decode_power (data : List Nat) : Option ℚ :=
  if data.length < 3 then none
  else pyFloat (insertDot 4 (renderBytes (data.take 3)))

/-- Arithmetic value of the reversed-BCD digit string of `data` (the spec
view: read bytes in reverse order, two decimal digits per byte). -/
def bcdVal (data : List Nat) : Nat := digitsVal (renderBytes data)

/-- Transport-level failures of `_send_frame`. -/
inductive TransportError where
  | NoResponse
  | AttemptRaised
deriving DecidableEq

/-- `DLT645Protocol._send_frame` (`src/dlt645_read_1.py` lines 156-200) with
the serial channel abstracted: element `i` of the list is what attempt `i`
of the wake/send/accumulate sequence yields — `some r` for an accumulated
response `r` (possibly empty) or `none` for an exception raised during the
attempt's I/O.  A non-empty response returns immediately; an empty one falls
through to the next attempt; an exception on the last attempt re-raises; the
loop ending with no response raises `Exception("No response from meter")`. -/
def send_frame : List (Option (List Nat)) → Except TransportError (List Nat)
  | [] => .error .NoResponse
  | some r :: rest => if r ≠ [] then .ok r else send_frame rest
  | none :: rest => if rest = [] then .error .AttemptRaised else send_frame rest

/-- `DLT645Protocol.read_data` (`src/dlt645_read_1.py` lines 202-226)
restricted to its error flow: `_send_frame` is called with its default
`retries=1` (a single attempt), and any exception from `_send_frame` or
`_parse_response` is caught and turned into `None`. -/
def read_data (attempt0 : Option (List Nat)) : Option ParsedFrame :=
  match send_frame [attempt0] with
  | .error _ => none
  | .ok resp =>
    match parse_response resp with
    | .error _ => none
    | .ok p => some p

/-! Helper lemmas about the masking transform and the checksum. -/

lemma bytesOf_of_bounds (f : Nat → Int) (g : Nat → Nat) (l : List Nat)
    (hf : ∀ b ∈ l, 0 ≤ f b ∧ f b < 256 ∧ (f b).toNat = g b) :
    bytesOf (l.map f) = some (l.map g) := by
  unfold bytesOf
  rw [if_pos]
  · rw [List.map_map]
    apply congrArg
    apply List.map_congr_left
    intro b hb
    simp only [Function.comp_apply]
    exact (hf b hb).2.2
  · rw [List.all_eq_true]
    intro x hx
    rw [List.mem_map] at hx
    obtain ⟨b, hb, rfl⟩ := hx
    have := hf b hb
    rw [Bool.and_eq_true, decide_eq_true_eq, decide_eq_true_eq]
    exact ⟨this.1, this.2.1⟩

lemma bytesOf_eq_some (xs : List Int) (m : List Nat) (h : bytesOf xs = some m) :
    (∀ x ∈ xs, 0 ≤ x ∧ x < 256) ∧ m = xs.map Int.toNat := by
  unfold bytesOf at h
  split at h
  · rename_i hall
    rw [List.all_eq_true] at hall
    constructor
    · intro x hx
      have := hall x hx
      rw [Bool.and_eq_true, decide_eq_true_eq, decide_eq_true_eq] at this
      exact this
    · exact (Option.some_inj.mp h).symm
  · exact absurd h (by simp)

lemma bytesOf_eq_none (xs : List Int) (x : Int) (hx : x ∈ xs) (hbad : x < 0 ∨ 256 ≤ x) :
    bytesOf xs = none := by
  unfold bytesOf
  rw [if_neg]
  intro hall
  rw [List.all_eq_true] at hall
  have := hall x hx
  rw [Bool.and_eq_true, decide_eq_true_eq, decide_eq_true_eq] at this
  omega

lemma add_33h_of_small (l : List Nat) (h : ∀ b ∈ l, b + 0x33 < 256) :
    add_33h l = some (l.map (· + 0x33)) := by
  unfold add_33h
  apply bytesOf_of_bounds
  intro b hb
  have := h b hb
  refine ⟨by omega, by omega, by omega⟩

lemma add_33h_eq_some (l m : List Nat) (h : add_33h l = some m) :
    (∀ b ∈ l, b + 0x33 < 256) ∧ m = l.map (· + 0x33) := by
  unfold add_33h at h
  obtain ⟨hall, rfl⟩ := bytesOf_eq_some _ _ h
  have hsmall : ∀ b ∈ l, b + 0x33 < 256 := by
    intro b hb
    have := hall ((b : Int) + 0x33) (List.mem_map.mpr ⟨b, hb, rfl⟩)
    omega
  refine ⟨hsmall, ?_⟩
  rw [List.map_map]
  apply List.map_congr_left
  intro b hb
  simp only [Function.comp_apply]
  omega

lemma sub_33h_map_add (l : List Nat) (h : ∀ b ∈ l, b + 0x33 < 256) :
    sub_33h (l.map (· + 0x33)) = some l := by
  unfold sub_33h
  rw [List.map_map]
  have : ((fun b : Nat => (b : Int) - 0x33) ∘ (· + 0x33)) =
      fun b : Nat => ((b + 0x33 : Nat) : Int) - 0x33 := rfl
  rw [this]
  have := bytesOf_of_bounds (fun b : Nat => ((b + 0x33 : Nat) : Int) - 0x33) id l ?_
  · simpa using this
  · intro b hb
    have := h b hb
    dsimp only [id_eq]
    refine ⟨by omega, by omega, by omega⟩

lemma sub_33h_eq_none_iff (l : List Nat) (hl : ∀ b ∈ l, b < 256) :
    sub_33h l = none ↔ ∃ b ∈ l, b < 0x33 := by
  constructor
  · intro h
    by_contra hno
    push_neg at hno
    have := bytesOf_of_bounds (fun b : Nat => (b : Int) - 0x33) (fun b => b - 0x33) l ?_
    · unfold sub_33h at h
      rw [h] at this
      exact absurd this (by simp)
    · intro b hb
      have h1 := hl b hb
      have h2 := hno b hb
      dsimp only
      refine ⟨by omega, by omega, by omega⟩
  · rintro ⟨b, hb, hlt⟩
    unfold sub_33h
    apply bytesOf_eq_none _ ((b : Int) - 0x33) (List.mem_map.mpr ⟨b, hb, rfl⟩)
    left
    omega

lemma sum_set_getD (l : List Nat) (i v : Nat) (h : i < l.length) :
    (l.set i v).sum + l.getD i 0 = l.sum + v := by
  induction l generalizing i with
  | nil => simp at h
  | cons a t ih =>
    cases i with
    | zero =>
      simp only [List.set_cons_zero, List.sum_cons, List.getD_cons_zero]
      omega
    | succ n =>
      have hn : n < t.length := by simpa using h
      have := ih n hn
      simp only [List.set_cons_succ, List.sum_cons, List.getD_cons_succ]
      omega

lemma xor_pow_mod_ne (b k : Nat) (hk : k < 8) : (b ^^^ 2 ^ k) % 256 ≠ b % 256 := by
  intro hmod256
  have hmod : (b ^^^ 2 ^ k) % 2 ^ 8 = b % 2 ^ 8 := by
    have h28 : (2 : Nat) ^ 8 = 256 := by norm_num
    rw [h28]
    exact hmod256
  have hbit := congrArg (fun x => x.testBit k) hmod
  have hdec : decide (k < 8) = true := by simpa using hk
  simp only [Nat.testBit_mod_two_pow, Nat.testBit_xor, Nat.testBit_two_pow_self, hdec,
    Bool.true_and, Bool.xor_true] at hbit
  cases hb : b.testBit k <;> rw [hb] at hbit <;> simp at hbit

lemma checksum_set_xor (l : List Nat) (i k : Nat) (hi : i < l.length) (hk : k < 8) :
    checksum (l.set i (l.getD i 0 ^^^ 2 ^ k)) ≠ checksum l := by
  intro hEq
  have hsum := sum_set_getD l i (l.getD i 0 ^^^ 2 ^ k) hi
  unfold checksum at hEq
  exact xor_pow_mod_ne (l.getD i 0) k hk (by omega)

lemma fromBytesLE_le4 (n : Nat) (h : n < 2 ^ 32) : fromBytesLE (le4 n) = n := by
  unfold fromBytesLE le4
  simp only [List.foldr_cons, List.foldr_nil]
  omega

/-! Structural lemmas about `parse_response` and `build_frame`. -/

lemma parse_response_header (hdr field : List Nat) (x : Nat)
    (h10 : hdr.length = 10)
    (h0 : hdr.getD 0 0 = FRAME_START) (h7 : hdr.getD 7 0 = FRAME_START)
    (h9 : hdr.getD 9 0 = field.length) :
    parse_response (hdr ++ (field ++ [x, FRAME_END])) =
      if x ≠ checksum (hdr ++ field) then Except.error ParseError.ChecksumMismatch
      else
        match (if field ≠ [] then sub_33h field else some field) with
        | none => Except.error ParseError.UnmaskValueError
        | some df =>
          if 4 ≤ df.length then
            Except.ok ⟨((hdr ++ (field ++ [x, FRAME_END])).drop 1).take 6, hdr.getD 8 0,
                some (fromBytesLE (df.take 4)), df.drop 4, hdr ++ (field ++ [x, FRAME_END])⟩
          else
            Except.ok ⟨((hdr ++ (field ++ [x, FRAME_END])).drop 1).take 6, hdr.getD 8 0,
                none, df, hdr ++ (field ++ [x, FRAME_END])⟩ := by
  set r := hdr ++ (field ++ [x, FRAME_END]) with hr
  have hlen : r.length = 12 + field.length := by
    rw [hr]
    simp only [List.length_append, List.length_cons, List.length_nil, h10]
    omega
  have e0 : r.getD 0 0 = FRAME_START := by
    rw [hr, List.getD_append _ _ _ _ (by omega)]
    exact h0
  have e7 : r.getD 7 0 = FRAME_START := by
    rw [hr, List.getD_append _ _ _ _ (by omega)]
    exact h7
  have e8 : r.getD 8 0 = hdr.getD 8 0 := by
    rw [hr, List.getD_append _ _ _ _ (by omega)]
  have e9 : r.getD 9 0 = field.length := by
    rw [hr, List.getD_append _ _ _ _ (by omega)]
    exact h9
  have elast : r.getD (r.length - 1) 0 = FRAME_END := by
    have h1 : r.length - 1 = hdr.length + (field.length + 1) := by
      rw [hlen, h10]
      omega
    rw [h1, hr, List.getD_append_right _ _ _ _ (by omega)]
    have h2 : hdr.length + (field.length + 1) - hdr.length = field.length + 1 := by omega
    rw [h2, List.getD_append_right _ _ _ _ (by omega)]
    have h3 : field.length + 1 - field.length = 1 := by omega
    rw [h3]
    rfl
  have ecs : r.getD (10 + field.length) 0 = x := by
    have h1 : 10 + field.length = hdr.length + field.length := by omega
    rw [h1, hr, List.getD_append_right _ _ _ _ (by omega)]
    have h2 : hdr.length + field.length - hdr.length = field.length := by omega
    rw [h2, List.getD_append_right _ _ _ _ (by omega)]
    have h3 : field.length - field.length = 0 := by omega
    rw [h3]
    rfl
  have etake : r.take (10 + field.length) = hdr ++ field := by
    rw [hr, ← List.append_assoc]
    apply List.take_left'
    simp [h10]
  have edata : (r.drop 10).take field.length = field := by
    rw [hr, List.drop_left' h10]
    exact List.take_left' rfl
  have c1 : ¬ (r.length < 12) := by omega
  have c2 : ¬ (r.getD 0 0 ≠ FRAME_START ∨ r.getD (r.length - 1) 0 ≠ FRAME_END) := by
    rintro (hne | hne)
    · exact hne e0
    · exact hne elast
  have c3 : ¬ (r.getD 7 0 ≠ FRAME_START) := fun hne => hne e7
  have c4 : ¬ (r.length ≠ 12 + r.getD 9 0) := by
    rw [e9]
    omega
  simp only [parse_response]
  rw [if_neg c1, if_neg c2, if_neg c3, if_neg c4, e9, ecs, etake, edata, e8]

lemma build_frame_eq_some (address : List Nat) (c di : Nat) (payload f : List Nat)
    (h : build_frame address c (some di) (some payload) = some f) :
    c < 256 ∧ di < 2 ^ 32 ∧ (∀ b ∈ le4 di ++ payload, b + 0x33 < 256) ∧
      (le4 di ++ payload).length ≤ 255 ∧
      f = (FRAME_START :: address ++ FRAME_START :: c ::
            ((le4 di ++ payload).map (· + 0x33)).length :: (le4 di ++ payload).map (· + 0x33)) ++
          [checksum (FRAME_START :: address ++ FRAME_START :: c ::
            ((le4 di ++ payload).map (· + 0x33)).length :: (le4 di ++ payload).map (· + 0x33)),
            FRAME_END] := by
  unfold build_frame toBytesLE4 at h
  dsimp only [Option.getD_some] at h
  split at h
  · exact absurd h (by simp)
  rename_i hc
  split at h
  · exact absurd h (by simp)
  rename_i diBytes heq
  by_cases hdi : di < 2 ^ 32
  · rw [if_pos hdi] at heq
    obtain rfl : diBytes = le4 di := (Option.some_inj.mp heq).symm
    rw [if_pos (by simp [le4])] at h
    split at h
    · exact absurd h (by simp)
    rename_i field hadd
    obtain ⟨hsmall, rfl⟩ := add_33h_eq_some _ _ hadd
    split at h
    · exact absurd h (by simp)
    rename_i hlen
    refine ⟨by omega, hdi, hsmall, ?_, ?_⟩
    · rw [List.length_map] at hlen
      omega
    · have := Option.some_inj.mp h
      rw [← this]
  · rw [if_neg hdi] at heq
    exact absurd heq (by simp)

lemma header_facts (address : List Nat) (c L : Nat) (h6 : address.length = 6) :
    (FRAME_START :: address ++ [FRAME_START, c, L]).length = 10 ∧
    (FRAME_START :: address ++ [FRAME_START, c, L]).getD 0 0 = FRAME_START ∧
    (FRAME_START :: address ++ [FRAME_START, c, L]).getD 7 0 = FRAME_START ∧
    (FRAME_START :: address ++ [FRAME_START, c, L]).getD 8 0 = c ∧
    (FRAME_START :: address ++ [FRAME_START, c, L]).getD 9 0 = L := by
  refine ⟨by simp [h6], rfl, ?_, ?_, ?_⟩
  · show (address ++ [FRAME_START, c, L]).getD 6 0 = FRAME_START
    rw [List.getD_append_right _ _ _ _ (by omega)]
    simp [h6]
  · show (address ++ [FRAME_START, c, L]).getD 7 0 = c
    rw [List.getD_append_right _ _ _ _ (by omega)]
    simp [h6]
  · show (address ++ [FRAME_START, c, L]).getD 8 0 = L
    rw [List.getD_append_right _ _ _ _ (by omega)]
    simp [h6]

/-! Claim theorems. -/

/-- C1 (amended): for every 6-byte meter address, every control code, 4-byte
identifier and payload for which `_build_frame` succeeds (success requires
every data-field byte at most `0xCC`, so that the `+ 0x33` masking does not
overflow a byte, and `4 + payload length ≤ 255`), `_parse_response` applied
to the built frame succeeds and returns exactly the same identifier and the
same payload bytes. -/
theorem C1_parse_build_roundtrip (address : List Nat) (c di : Nat)
    (payload f : List Nat) (h6 : address.length = 6)
    (hb : build_frame address c (some di) (some payload) = some f) :
    ∃ p, parse_response f = Except.ok p ∧ p.data_id = some di ∧ p.data = payload := by
  obtain ⟨hc, hdi, hmask, hlen255, rfl⟩ := build_frame_eq_some address c di payload f hb
  set field0 := le4 di ++ payload with hf0
  set field := field0.map (· + 0x33) with hfield
  have hlen0 : field0.length = 4 + payload.length := by
    simp [hf0, le4]
    omega
  have hassoc : (FRAME_START :: address ++ FRAME_START :: c :: field.length :: field) ++
      [checksum (FRAME_START :: address ++ FRAME_START :: c :: field.length :: field),
        FRAME_END]
      = (FRAME_START :: address ++ [FRAME_START, c, field.length]) ++
        (field ++ [checksum ((FRAME_START :: address ++ [FRAME_START, c, field.length]) ++
          field), FRAME_END]) := by
    simp [List.append_assoc]
  rw [hassoc]
  obtain ⟨h10, e0, e7, e8, e9⟩ := header_facts address c field.length h6
  rw [parse_response_header _ _ _ h10 e0 e7 e9]
  rw [if_neg (fun hne => hne rfl)]
  have hne : field ≠ [] := by
    intro hcon
    have : field.length = 0 := by rw [hcon]; rfl
    rw [hfield, List.length_map, hlen0] at this
    omega
  rw [if_pos hne, hfield, sub_33h_map_add field0 hmask]
  have h4 : 4 ≤ field0.length := by omega
  dsimp only
  rw [if_pos h4]
  refine ⟨_, rfl, ?_, ?_⟩
  · have ht : field0.take 4 = le4 di := by
      rw [hf0]
      exact List.take_left' (by simp [le4])
    simp only [ht, fromBytesLE_le4 di hdi]
  · have hd : field0.drop 4 = payload := by
      rw [hf0]
      exact List.drop_left' (by simp [le4])
    simp only [hd]

set_option maxRecDepth 4096 in
/-- C1 counterexample: the claim as stated quantifies over every payload, but
`_build_frame` itself raises `ValueError` for the payload `[0xCD]` (masking
has no `% 256`, so `bytes(...)` rejects `0xCD + 0x33 = 0x100`) and for a
252-byte payload (the length byte `4 + 252` is out of byte range), so there
is no frame whose parse could succeed. -/
theorem C1_cex_build_raises :
    build_frame [1, 0, 0, 0, 0, 0] 0x11 (some 0) (some [0xCD]) = none ∧
    build_frame [1, 0, 0, 0, 0, 0] 0x11 (some 0) (some (List.replicate 252 0)) = none := by
  constructor <;> decide

/-- C1 witness: the amended round-trip theorem applied at a concrete input. -/
theorem C1_witness :
    ∃ p, parse_response [0x68, 1, 0, 0, 0, 0, 0, 0x68, 0x11, 5,
        0x33, 0x33, 0x33, 0x33, 0x34, 0xE7, 0x16] = Except.ok p ∧
      p.data_id = some 0 ∧ p.data = [1] :=
  C1_parse_build_roundtrip [1, 0, 0, 0, 0, 0] 0x11 0 [1]
    [0x68, 1, 0, 0, 0, 0, 0, 0x68, 0x11, 5, 0x33, 0x33, 0x33, 0x33, 0x34, 0xE7, 0x16]
    (by decide) (by decide)

lemma getD_set_ne (l : List α) (i j : Nat) (v d : α) (h : i ≠ j) :
    (l.set i v).getD j d = l.getD j d := by
  rw [List.getD_eq_getElem?_getD, List.getD_eq_getElem?_getD, List.getElem?_set_ne h]

/-- C4 (amended): flipping any single bit of any byte of a built frame other
than the two start markers (bytes 0 and 7), the length byte (byte 9), the
checksum byte and the end byte (the last two bytes) makes `_parse_response`
fail with `ChecksumMismatch`.  Flips at bytes 0, 7 and the end byte corrupt
the frame markers and at byte 9 the declared length, so those positions fail
earlier with different errors and must be excluded. -/
theorem C4_checksum_sensitivity (address : List Nat) (c di : Nat)
    (payload f : List Nat) (i k : Nat) (h6 : address.length = 6)
    (hb : build_frame address c (some di) (some payload) = some f)
    (hi : i < f.length - 2) (hi0 : i ≠ 0) (hi7 : i ≠ 7) (hi9 : i ≠ 9) (hk : k < 8) :
    parse_response (f.set i (f.getD i 0 ^^^ 2 ^ k)) =
      Except.error ParseError.ChecksumMismatch := by
  obtain ⟨hc, hdi, hmask, hlen255, rfl⟩ := build_frame_eq_some address c di payload f hb
  set field := (le4 di ++ payload).map (· + 0x33) with hfield
  obtain ⟨h10, e0, e7, e8, e9⟩ := header_facts address c field.length h6
  set hdr := FRAME_START :: address ++ [FRAME_START, c, field.length] with hhdr
  set body := hdr ++ field with hbody
  have hfront : (FRAME_START :: address ++ FRAME_START :: c :: field.length :: field)
      = body := by
    rw [hbody, hhdr]
    simp [List.append_assoc]
  rw [hfront] at hi ⊢
  have hblen : body.length = 10 + field.length := by
    rw [hbody, List.length_append, h10]
  have hlenf : (body ++ [checksum body, FRAME_END]).length = body.length + 2 := by
    simp
  have hiB : i < body.length := by
    rw [hlenf] at hi
    omega
  have egD : (body ++ [checksum body, FRAME_END]).getD i 0 = body.getD i 0 :=
    List.getD_append _ _ _ _ hiB
  rw [egD, List.set_append_left i _ hiB]
  by_cases hcase : i < 10
  · have hEq : body.set i (body.getD i 0 ^^^ 2 ^ k)
        = hdr.set i (body.getD i 0 ^^^ 2 ^ k) ++ field := by
      rw [hbody, List.set_append_left i _ (by omega)]
    have h10s : (hdr.set i (body.getD i 0 ^^^ 2 ^ k)).length = 10 := by
      rw [List.length_set, h10]
    have e0s : (hdr.set i (body.getD i 0 ^^^ 2 ^ k)).getD 0 0 = FRAME_START := by
      rw [getD_set_ne _ _ _ _ _ hi0]
      exact e0
    have e7s : (hdr.set i (body.getD i 0 ^^^ 2 ^ k)).getD 7 0 = FRAME_START := by
      rw [getD_set_ne _ _ _ _ _ hi7]
      exact e7
    have e9s : (hdr.set i (body.getD i 0 ^^^ 2 ^ k)).getD 9 0 = field.length := by
      rw [getD_set_ne _ _ _ _ _ hi9]
      exact e9
    have hne : checksum body ≠ checksum (hdr.set i (body.getD i 0 ^^^ 2 ^ k) ++ field) := by
      rw [← hEq]
      exact (checksum_set_xor body i k hiB hk).symm
    rw [hEq, List.append_assoc, parse_response_header _ _ _ h10s e0s e7s e9s, if_pos hne]
  · have hEq : body.set i (body.getD i 0 ^^^ 2 ^ k)
        = hdr ++ field.set (i - 10) (body.getD i 0 ^^^ 2 ^ k) := by
      rw [hbody, List.set_append_right _ _ (by omega), h10]
    have e9s : hdr.getD 9 0 = (field.set (i - 10) (body.getD i 0 ^^^ 2 ^ k)).length := by
      rw [List.length_set]
      exact e9
    have hne : checksum body
        ≠ checksum (hdr ++ field.set (i - 10) (body.getD i 0 ^^^ 2 ^ k)) := by
      rw [← hEq]
      exact (checksum_set_xor body i k hiB hk).symm
    rw [hEq, List.append_assoc, parse_response_header _ _ _ h10 e0 e7 e9s, if_pos hne]

/-- C4 counterexample: flipping bit 0 of byte 0 of a built frame corrupts the
start marker, and `_parse_response` fails with `InvalidFrameMarkers`, not
`ChecksumMismatch` as the claim states for every non-checksum byte. -/
theorem C4_cex_flip_start_marker :
    build_frame [1, 0, 0, 0, 0, 0] 0x11 (some 0) (some []) =
      some [0x68, 1, 0, 0, 0, 0, 0, 0x68, 0x11, 4, 0x33, 0x33, 0x33, 0x33, 0xB2, 0x16] ∧
    parse_response ([0x68, 1, 0, 0, 0, 0, 0, 0x68, 0x11, 4, 0x33, 0x33, 0x33, 0x33, 0xB2,
        0x16].set 0 (0x68 ^^^ 2 ^ 0)) = Except.error ParseError.InvalidFrameMarkers :=
  ⟨by decide, rfl⟩

/-- C4 witness: the amended theorem applied at a concrete frame, flipping bit
0 of address byte 1. -/
theorem C4_witness :
    parse_response (([0x68, 1, 0, 0, 0, 0, 0, 0x68, 0x11, 4, 0x33, 0x33, 0x33, 0x33, 0xB2,
        0x16] : List Nat).set 1 (([0x68, 1, 0, 0, 0, 0, 0, 0x68, 0x11, 4, 0x33, 0x33, 0x33,
        0x33, 0xB2, 0x16] : List Nat).getD 1 0 ^^^ 2 ^ 0)) =
      Except.error ParseError.ChecksumMismatch :=
  C4_checksum_sensitivity [1, 0, 0, 0, 0, 0] 0x11 0 []
    [0x68, 1, 0, 0, 0, 0, 0, 0x68, 0x11, 4, 0x33, 0x33, 0x33, 0x33, 0xB2, 0x16] 1 0
    (by decide) (by decide) (by decide) (by decide) (by decide) (by decide) (by decide)

/-- C2: the code bug recorded — the spec requires `mask`/`unmask` to add and
subtract `0x33` modulo 256 per byte and hence to be total on bytes 0..255,
but the source has no `% 256`: `_add_33h` raises `ValueError` on the byte
`0xCD` (because `0xCD + 0x33 = 0x100` is rejected by `bytes(...)`) and
`_sub_33h` raises on the byte `0x00` (negative result), so neither operation
is total and the round trip fails on such bytes. -/
theorem C2_mask_not_total : add_33h [0xCD] = none ∧ sub_33h [0x00] = none := by
  constructor <;> decide

/-- C9: the fixed decoders reproduce the spec's worked examples —
`decode_energy [0x78, 0x56, 0x34, 0x12] = 123456.78` and
`decode_voltage [0x30, 0x22] = 223.0` (decimal numerals modelled exactly
over `ℚ`). -/
theorem C9_worked_examples :
    decode_energy [0x78, 0x56, 0x34, 0x12] = some (123456.78 : ℚ) ∧
    decode_voltage [0x30, 0x22] = some (223.0 : ℚ) := by
  constructor
  · simp +decide [decode_energy, insertDot, renderBytes, pyFloat, mantissa, digitsVal, isEChar]
    norm_num
  · simp +decide [decode_voltage, insertDot, renderBytes, pyFloat, mantissa, digitsVal, isEChar]
    norm_num

/-- C7 (amended): `_send_frame` retries only on an empty accumulated response
or an exception inside an attempt, bounded by the attempt list; exhausting
every attempt with no bytes raises `NoResponse` rather than returning partial
data; a non-empty response is returned at once without consuming further
attempts; and a parse failure is *not* retried — `read_data` (which calls
`_send_frame` with its default single attempt) converts it to a missing
value. -/
theorem C7_transport_retry (attempts : List (Option (List Nat))) :
    ((∀ o ∈ attempts, o = some []) →
      send_frame attempts = Except.error TransportError.NoResponse)
    ∧ (∀ (r : List Nat) (rest : List (Option (List Nat))), r ≠ [] →
        send_frame (some r :: rest) = Except.ok r)
    ∧ (∀ (r : List Nat) (e : ParseError), r ≠ [] → parse_response r = Except.error e →
        read_data (some r) = none) := by
  refine ⟨?_, ?_, ?_⟩
  · intro h
    induction attempts with
    | nil => rfl
    | cons o rest ih =>
      have ho := h o (by simp)
      subst ho
      rw [send_frame, if_neg (by simp)]
      exact ih (fun o ho => h o (by simp [ho]))
  · intro r rest hr
    rw [send_frame, if_pos hr]
  · intro r e hr hp
    unfold read_data
    rw [send_frame, if_pos hr]
    dsimp only
    rw [hp]

/-- C7 counterexample: the claim says a parse failure is retried, but with a
malformed response on attempt 0 and a perfectly valid frame available on
attempt 1, the transport returns the malformed bytes immediately and the read
path yields no value — the second attempt is never consumed. -/
theorem C7_cex_no_retry_on_parse_failure :
    send_frame [some [1], some [0x68, 1, 0, 0, 0, 0, 0, 0x68, 0x11, 4,
        0x33, 0x33, 0x33, 0x33, 0xB2, 0x16]] = Except.ok [1]
    ∧ read_data (some [1]) = none
    ∧ (∃ p, parse_response [0x68, 1, 0, 0, 0, 0, 0, 0x68, 0x11, 4,
        0x33, 0x33, 0x33, 0x33, 0xB2, 0x16] = Except.ok p) :=
  ⟨rfl, rfl, ⟨_, rfl⟩⟩

/-- C7 witness: the amended theorem applied at concrete attempt lists. -/
theorem C7_witness :
    send_frame [some [], some []] = Except.error TransportError.NoResponse ∧
    read_data (some [2]) = none :=
  ⟨(C7_transport_retry [some [], some []]).1 (by decide),
   (C7_transport_retry []).2.2 [2] ParseError.FrameTooShort (by decide) rfl⟩

/-- C3 (amended): on any byte string, `_parse_response` fails with exactly
the claimed errors checked in the claimed order — `FrameTooShort` (< 12
bytes), else `InvalidFrameMarkers` (byte 0 or last byte wrong), else
`InvalidSecondStart` (byte 7 wrong), else `LengthMismatch` (declared length
byte does not match the actual remaining length, so a frame claiming more
data than present is rejected rather than truncated), else
`ChecksumMismatch` (mod-256 sum of bytes `[0, 10+length)` differs from the
received checksum byte); but when every check passes, unmasking itself
raises an additional `ValueError` (not among the five listed errors)
whenever some data-field byte is below `0x33`, and only otherwise is a
parsed frame returned. -/
theorem C3_parse_error_order (r : List Nat) (hbytes : ∀ b ∈ r, b < 256) :
    (r.length < 12 → parse_response r = Except.error ParseError.FrameTooShort)
    ∧ (12 ≤ r.length →
        (r.getD 0 0 ≠ FRAME_START ∨ r.getD (r.length - 1) 0 ≠ FRAME_END) →
        parse_response r = Except.error ParseError.InvalidFrameMarkers)
    ∧ (12 ≤ r.length → r.getD 0 0 = FRAME_START → r.getD (r.length - 1) 0 = FRAME_END →
        r.getD 7 0 ≠ FRAME_START →
        parse_response r = Except.error ParseError.InvalidSecondStart)
    ∧ (12 ≤ r.length → r.getD 0 0 = FRAME_START → r.getD (r.length - 1) 0 = FRAME_END →
        r.getD 7 0 = FRAME_START → r.length ≠ 12 + r.getD 9 0 →
        parse_response r = Except.error ParseError.LengthMismatch)
    ∧ (12 ≤ r.length → r.getD 0 0 = FRAME_START → r.getD (r.length - 1) 0 = FRAME_END →
        r.getD 7 0 = FRAME_START → r.length = 12 + r.getD 9 0 →
        r.getD (10 + r.getD 9 0) 0 ≠ (r.take (10 + r.getD 9 0)).sum % 256 →
        parse_response r = Except.error ParseError.ChecksumMismatch)
    ∧ (12 ≤ r.length → r.getD 0 0 = FRAME_START → r.getD (r.length - 1) 0 = FRAME_END →
        r.getD 7 0 = FRAME_START → r.length = 12 + r.getD 9 0 →
        r.getD (10 + r.getD 9 0) 0 = (r.take (10 + r.getD 9 0)).sum % 256 →
        (∃ b ∈ (r.drop 10).take (r.getD 9 0), b < 0x33) →
        parse_response r = Except.error ParseError.UnmaskValueError)
    ∧ (12 ≤ r.length → r.getD 0 0 = FRAME_START → r.getD (r.length - 1) 0 = FRAME_END →
        r.getD 7 0 = FRAME_START → r.length = 12 + r.getD 9 0 →
        r.getD (10 + r.getD 9 0) 0 = (r.take (10 + r.getD 9 0)).sum % 256 →
        (∀ b ∈ (r.drop 10).take (r.getD 9 0), 0x33 ≤ b) →
        ∃ p, parse_response r = Except.ok p) := by
  refine ⟨?_, ?_, ?_, ?_, ?_, ?_, ?_⟩
  · intro h
    simp only [parse_response]
    rw [if_pos h]
  · intro h12 hmark
    simp only [parse_response]
    rw [if_neg (by omega), if_pos hmark]
  · intro h12 h0 hL h7
    simp only [parse_response]
    rw [if_neg (by omega),
      if_neg (fun hor => hor.elim (fun hne => hne h0) (fun hne => hne hL)), if_pos h7]
  · intro h12 h0 hL h7 hlen
    simp only [parse_response]
    rw [if_neg (by omega),
      if_neg (fun hor => hor.elim (fun hne => hne h0) (fun hne => hne hL)),
      if_neg (fun hne => hne h7), if_pos hlen]
  · intro h12 h0 hL h7 hlen hcs
    simp only [parse_response, checksum]
    rw [if_neg (by omega),
      if_neg (fun hor => hor.elim (fun hne => hne h0) (fun hne => hne hL)),
      if_neg (fun hne => hne h7), if_neg (fun hne => hne hlen), if_pos hcs]
  · intro h12 h0 hL h7 hlen hcs hbad
    simp only [parse_response, checksum]
    rw [if_neg (by omega),
      if_neg (fun hor => hor.elim (fun hne => hne h0) (fun hne => hne hL)),
      if_neg (fun hne => hne h7), if_neg (fun hne => hne hlen),
      if_neg (fun hne => hne hcs)]
    obtain ⟨b, hb, hblt⟩ := hbad
    rw [if_pos (List.ne_nil_of_mem hb)]
    have hsub : sub_33h ((r.drop 10).take (r.getD 9 0)) = none := by
      rw [sub_33h_eq_none_iff]
      · exact ⟨b, hb, hblt⟩
      · intro x hx
        exact hbytes x (List.mem_of_mem_drop (List.mem_of_mem_take hx))
    rw [hsub]
  · intro h12 h0 hL h7 hlen hcs hge
    simp only [parse_response, checksum]
    rw [if_neg (by omega),
      if_neg (fun hor => hor.elim (fun hne => hne h0) (fun hne => hne hL)),
      if_neg (fun hne => hne h7), if_neg (fun hne => hne hlen),
      if_neg (fun hne => hne hcs)]
    by_cases hfe : (r.drop 10).take (r.getD 9 0) = []
    · rw [if_neg (fun hne => hne hfe)]
      dsimp only
      rw [if_neg (by rw [hfe]; simp)]
      exact ⟨_, rfl⟩
    · rw [if_pos hfe]
      cases hsub : sub_33h ((r.drop 10).take (r.getD 9 0)) with
      | none =>
        rw [sub_33h_eq_none_iff] at hsub
        · obtain ⟨b, hb, hblt⟩ := hsub
          exact absurd (hge b hb) (by omega)
        · intro x hx
          exact hbytes x (List.mem_of_mem_drop (List.mem_of_mem_take hx))
      | some df =>
        dsimp only
        split
        · exact ⟨_, rfl⟩
        · exact ⟨_, rfl⟩

/-- C3 counterexample: a 13-byte frame that passes every listed check (its
checksum is correct) but whose single data byte `0x00` makes `_sub_33h`
raise a `ValueError` that is none of the five listed errors — the claim's
"otherwise it returns a parsed frame" is false. -/
theorem C3_cex_unmask_error :
    parse_response [0x68, 0, 0, 0, 0, 0, 0, 0x68, 0, 1, 0, 0xD1, 0x16] =
      Except.error ParseError.UnmaskValueError := rfl

/-- C3 witness: the error-order theorem applied at a concrete short input. -/
theorem C3_witness : parse_response [] = Except.error ParseError.FrameTooShort :=
  (C3_parse_error_order [] (by decide)).1 (by decide)

lemma exists_twelve (l : List α) (h : l.length = 12) :
    ∃ c0 c1 c2 c3 c4 c5 c6 c7 c8 c9 c10 c11,
      l = [c0, c1, c2, c3, c4, c5, c6, c7, c8, c9, c10, c11] := by
  rcases l with _ | ⟨c0, l⟩
  · simp at h
  rcases l with _ | ⟨c1, l⟩
  · simp at h
  rcases l with _ | ⟨c2, l⟩
  · simp at h
  rcases l with _ | ⟨c3, l⟩
  · simp at h
  rcases l with _ | ⟨c4, l⟩
  · simp at h
  rcases l with _ | ⟨c5, l⟩
  · simp at h
  rcases l with _ | ⟨c6, l⟩
  · simp at h
  rcases l with _ | ⟨c7, l⟩
  · simp at h
  rcases l with _ | ⟨c8, l⟩
  · simp at h
  rcases l with _ | ⟨c9, l⟩
  · simp at h
  rcases l with _ | ⟨c10, l⟩
  · simp at h
  rcases l with _ | ⟨c11, l⟩
  · simp at h
  rcases l with _ | ⟨c12, l⟩
  · exact ⟨c0, c1, c2, c3, c4, c5, c6, c7, c8, c9, c10, c11, rfl⟩
  · simp at h

lemma hexVal_digitChar (d : Nat) (h : d < 10) :
    hexVal (Char.ofNat (48 + d)) = some d := by
  interval_cases d <;> decide

lemma parsePair_digits (a b : Nat) (ha : a < 10) (hb : b < 10) :
    parsePair (Char.ofNat (48 + a)) (Char.ofNat (48 + b)) = some (16 * a + b) := by
  unfold parsePair
  rw [hexVal_digitChar a ha, hexVal_digitChar b hb]
  rfl

/-- Spec view of the address codec's byte assembly: pair consecutive decimal
digits into BCD bytes `16·tens + ones`, in original order. -/
def bcdPairs : List Nat → List Nat
  | d1 :: d2 :: rest => (16 * d1 + d2) :: bcdPairs rest
  | _ => []

lemma format_address_digits12 (ds : List Nat) (h12 : ds.length = 12)
    (hdig : ∀ d ∈ ds, d < 10) :
    format_address (ds.map (fun d => Char.ofNat (48 + d))) =
      some (bcdPairs ds).reverse := by
  obtain ⟨d0, d1, d2, d3, d4, d5, d6, d7, d8, d9, d10, d11, rfl⟩ := exists_twelve ds h12
  have h0 : d0 < 10 := hdig d0 (by simp)
  have h1 : d1 < 10 := hdig d1 (by simp)
  have h2 : d2 < 10 := hdig d2 (by simp)
  have h3 : d3 < 10 := hdig d3 (by simp)
  have h4 : d4 < 10 := hdig d4 (by simp)
  have h5 : d5 < 10 := hdig d5 (by simp)
  have h6 : d6 < 10 := hdig d6 (by simp)
  have h7 : d7 < 10 := hdig d7 (by simp)
  have h8 : d8 < 10 := hdig d8 (by simp)
  have h9 : d9 < 10 := hdig d9 (by simp)
  have h10 : d10 < 10 := hdig d10 (by simp)
  have h11 : d11 < 10 := hdig d11 (by simp)
  simp only [List.map_cons, List.map_nil]
  unfold format_address
  have hz : (zfill12 [Char.ofNat (48 + d0), Char.ofNat (48 + d1), Char.ofNat (48 + d2),
      Char.ofNat (48 + d3), Char.ofNat (48 + d4), Char.ofNat (48 + d5), Char.ofNat (48 + d6),
      Char.ofNat (48 + d7), Char.ofNat (48 + d8), Char.ofNat (48 + d9), Char.ofNat (48 + d10),
      Char.ofNat (48 + d11)]).take 12
      = [Char.ofNat (48 + d0), Char.ofNat (48 + d1), Char.ofNat (48 + d2),
        Char.ofNat (48 + d3), Char.ofNat (48 + d4), Char.ofNat (48 + d5), Char.ofNat (48 + d6),
        Char.ofNat (48 + d7), Char.ofNat (48 + d8), Char.ofNat (48 + d9), Char.ofNat (48 + d10),
        Char.ofNat (48 + d11)] := rfl
  rw [hz]
  dsimp only
  rw [parsePair_digits d0 d1 h0 h1, parsePair_digits d2 d3 h2 h3, parsePair_digits d4 d5 h4 h5,
    parsePair_digits d6 d7 h6 h7, parsePair_digits d8 d9 h8 h9,
    parsePair_digits d10 d11 h10 h11]
  rfl

lemma zfill12_digits (ds : List Nat) :
    zfill12 (ds.map (fun d => Char.ofNat (48 + d)))
      = (List.replicate (12 - ds.length) 0 ++ ds).map (fun d => Char.ofNat (48 + d)) := by
  unfold zfill12
  rw [List.map_append, List.map_replicate, List.length_map]

/-- C8: `_format_address` left-pads its decimal digit string with zeros to 12
digits — a string of at most 12 digits is parsed exactly as its explicitly
zero-left-padded 12-digit form — then splits the 12 digits into six pairs in
original order, parses each pair into the BCD byte `16·tens + ones`, and
reverses the six bytes.  In particular `_format_address "000000000001"` and
the genuinely short input `_format_address "1"` both give
`[0x01, 0x00, 0x00, 0x00, 0x00, 0x00]`. -/
theorem C8_format_address (ds : List Nat) (hle : ds.length ≤ 12)
    (hdig : ∀ d ∈ ds, d < 10) :
    format_address "000000000001".toList = some [1, 0, 0, 0, 0, 0] ∧
    format_address "1".toList = some [1, 0, 0, 0, 0, 0] ∧
    format_address (ds.map (fun d => Char.ofNat (48 + d))) =
      format_address ((List.replicate (12 - ds.length) 0 ++ ds).map
        (fun d => Char.ofNat (48 + d))) ∧
    format_address (ds.map (fun d => Char.ofNat (48 + d))) =
      some (bcdPairs (List.replicate (12 - ds.length) 0 ++ ds)).reverse := by
  have hpadlen : (List.replicate (12 - ds.length) 0 ++ ds).length = 12 := by
    rw [List.length_append, List.length_replicate]
    omega
  have hpaddig : ∀ d ∈ List.replicate (12 - ds.length) 0 ++ ds, d < 10 := by
    intro d hd
    rcases List.mem_append.mp hd with h | h
    · rw [List.eq_of_mem_replicate h]
      omega
    · exact hdig d h
  have hsame : format_address (ds.map (fun d => Char.ofNat (48 + d))) =
      format_address ((List.replicate (12 - ds.length) 0 ++ ds).map
        (fun d => Char.ofNat (48 + d))) := by
    unfold format_address
    rw [zfill12_digits ds]
    have hz2 : zfill12 ((List.replicate (12 - ds.length) 0 ++ ds).map
        (fun d => Char.ofNat (48 + d)))
        = (List.replicate (12 - ds.length) 0 ++ ds).map (fun d => Char.ofNat (48 + d)) := by
      unfold zfill12
      rw [List.length_map, hpadlen]
      simp
    rw [hz2]
  refine ⟨by decide, by decide, hsame, ?_⟩
  rw [hsame]
  exact format_address_digits12 _ hpadlen hpaddig

/-- C8 witness: the theorem applied at the genuinely short digit string
`270235` (six digits, as on the meter's nameplate), which the codec pads to
`000000270235` before pairing and reversing. -/
theorem C8_witness :
    format_address "000000000001".toList = some [1, 0, 0, 0, 0, 0] ∧
    format_address "1".toList = some [1, 0, 0, 0, 0, 0] ∧
    format_address ([2, 7, 0, 2, 3, 5].map (fun d => Char.ofNat (48 + d))) =
      format_address ((List.replicate (12 - ([2, 7, 0, 2, 3, 5] : List Nat).length) 0 ++
        [2, 7, 0, 2, 3, 5]).map (fun d => Char.ofNat (48 + d))) ∧
    format_address ([2, 7, 0, 2, 3, 5].map (fun d => Char.ofNat (48 + d))) =
      some (bcdPairs (List.replicate (12 - ([2, 7, 0, 2, 3, 5] : List Nat).length) 0 ++
        [2, 7, 0, 2, 3, 5])).reverse :=
  C8_format_address [2, 7, 0, 2, 3, 5] (by decide) (by decide)

lemma format_address_take (s : List Char) (h : 12 ≤ s.length) :
    format_address s = format_address (s.take 12) := by
  unfold format_address zfill12
  have h1 : 12 - s.length = 0 := by omega
  have h2 : 12 - (s.take 12).length = 0 := by
    rw [List.length_take]
    omega
  rw [h1, h2]
  simp only [List.replicate_zero, List.nil_append]
  rw [List.take_take]
  norm_num

/-- C10 counterexample: the claim's parenthetical "no error is raised" fails
as a universal statement about strings longer than 12 characters — on a
13-character non-hex string `int(_, 16)` raises `ValueError` (from the
first 12 characters, not from the excess length). -/
theorem C10_cex_nonhex :
    format_address "GGGGGGGGGGGGG".toList = none := by decide

/-- C10 (amended): for every address string of at least 12 characters,
`_format_address` uses only the first 12 characters and ignores the rest —
no padding occurs and the excess length itself raises no error: the result
equals that of the first 12 characters alone, any two strings agreeing on
their first 12 characters produce the same result, and the result is
defined whenever the first 12 characters are hex digits. -/
theorem C10_first_twelve (s t : List Char) (hs : 12 ≤ s.length) (ht : 12 ≤ t.length)
    (hst : s.take 12 = t.take 12) :
    format_address s = format_address t ∧
    format_address s = format_address (s.take 12) ∧
    ((∀ ch ∈ s.take 12, (hexVal ch).isSome) → (format_address s).isSome) := by
  refine ⟨?_, format_address_take s hs, ?_⟩
  · rw [format_address_take s hs, format_address_take t ht, hst]
  · intro hhex
    rw [format_address_take s hs]
    have h12 : (s.take 12).length = 12 := by
      rw [List.length_take]
      omega
    obtain ⟨c0, c1, c2, c3, c4, c5, c6, c7, c8, c9, c10, c11, hEq⟩ :=
      exists_twelve (s.take 12) h12
    rw [hEq] at hhex ⊢
    obtain ⟨v0, hv0⟩ := Option.isSome_iff_exists.mp (hhex c0 (by simp))
    obtain ⟨v1, hv1⟩ := Option.isSome_iff_exists.mp (hhex c1 (by simp))
    obtain ⟨v2, hv2⟩ := Option.isSome_iff_exists.mp (hhex c2 (by simp))
    obtain ⟨v3, hv3⟩ := Option.isSome_iff_exists.mp (hhex c3 (by simp))
    obtain ⟨v4, hv4⟩ := Option.isSome_iff_exists.mp (hhex c4 (by simp))
    obtain ⟨v5, hv5⟩ := Option.isSome_iff_exists.mp (hhex c5 (by simp))
    obtain ⟨v6, hv6⟩ := Option.isSome_iff_exists.mp (hhex c6 (by simp))
    obtain ⟨v7, hv7⟩ := Option.isSome_iff_exists.mp (hhex c7 (by simp))
    obtain ⟨v8, hv8⟩ := Option.isSome_iff_exists.mp (hhex c8 (by simp))
    obtain ⟨v9, hv9⟩ := Option.isSome_iff_exists.mp (hhex c9 (by simp))
    obtain ⟨v10, hv10⟩ := Option.isSome_iff_exists.mp (hhex c10 (by simp))
    obtain ⟨v11, hv11⟩ := Option.isSome_iff_exists.mp (hhex c11 (by simp))
    unfold format_address
    have hz : (zfill12 [c0, c1, c2, c3, c4, c5, c6, c7, c8, c9, c10, c11]).take 12
        = [c0, c1, c2, c3, c4, c5, c6, c7, c8, c9, c10, c11] := rfl
    rw [hz]
    dsimp only
    unfold parsePair
    rw [hv0, hv1, hv2, hv3, hv4, hv5, hv6, hv7, hv8, hv9, hv10, hv11]
    rfl

/-- C10 witness: the theorem applied at a 15-character string and its
12-character prefix sibling. -/
theorem C10_witness :
    format_address "000000000001XYZ".toList = format_address "000000000001".toList ∧
    format_address "000000000001XYZ".toList =
      format_address ("000000000001XYZ".toList.take 12) ∧
    ((∀ ch ∈ "000000000001XYZ".toList.take 12, (hexVal ch).isSome) →
      (format_address "000000000001XYZ".toList).isSome) :=
  C10_first_twelve "000000000001XYZ".toList "000000000001".toList
    (by decide) (by decide) (by decide)

/-! Lemmas about the BCD digit strings and the Python float model. -/

lemma flat_digits_length (l : List Nat) :
    (l.flatMap (fun b => [SChar.digit (b / 16), SChar.digit (b % 16)])).length
      = 2 * l.length := by
  induction l with
  | nil => rfl
  | cons a t ih =>
    rw [List.flatMap_cons, List.length_append, ih, List.length_cons]
    simp
    omega

lemma renderBytes_length (data : List Nat) :
    (renderBytes data).length = 2 * data.length := by
  unfold renderBytes
  rw [flat_digits_length, List.length_reverse]

lemma renderBytes_all_dec (data : List Nat)
    (hbcd : ∀ b ∈ data, b % 16 < 10 ∧ b / 16 < 10) :
    ∀ c ∈ renderBytes data, isDecDigit c = true := by
  unfold renderBytes
  intro c hc
  rw [List.mem_flatMap] at hc
  obtain ⟨b, hb, hcb⟩ := hc
  rw [List.mem_reverse] at hb
  have hB := hbcd b hb
  rcases List.mem_cons.mp hcb with h | h
  · subst h
    simp [isDecDigit, hB.2]
  · rcases List.mem_singleton.mp h with rfl
    simp [isDecDigit, hB.1]

lemma digitsVal_foldl_dec (t : List SChar) (ht : ∀ c ∈ t, isDecDigit c = true) (a : Nat) :
    t.foldl (fun a c => match c with | SChar.digit d => 10 * a + d | SChar.dot => a) a
      = a * 10 ^ t.length + digitsVal t := by
  induction t generalizing a with
  | nil => simp [digitsVal]
  | cons c t ih =>
    cases c with
    | dot => exact absurd (ht SChar.dot (by simp)) (by simp [isDecDigit])
    | digit d =>
      have htT : ∀ x ∈ t, isDecDigit x = true := fun x hx => ht x (by simp [hx])
      have h2 : digitsVal (SChar.digit d :: t) = d * 10 ^ t.length + digitsVal t := by
        have h0 : digitsVal (SChar.digit d :: t)
            = t.foldl (fun a c => match c with | SChar.digit d => 10 * a + d | SChar.dot => a)
              (10 * 0 + d) := rfl
        rw [h0, ih htT (10 * 0 + d)]
        ring
      rw [List.foldl_cons]
      dsimp only
      rw [ih htT (10 * a + d), h2, List.length_cons]
      ring

lemma digitsVal_append_dec (s t : List SChar) (ht : ∀ c ∈ t, isDecDigit c = true) :
    digitsVal (s ++ t) = digitsVal s * 10 ^ t.length + digitsVal t := by
  unfold digitsVal
  rw [List.foldl_append]
  exact digitsVal_foldl_dec t ht _

lemma takeWhile_digits_dot (s t : List SChar) (hs : ∀ c ∈ s, isDecDigit c = true) :
    (s ++ SChar.dot :: t).takeWhile (fun c => !decide (c = SChar.dot)) = s := by
  induction s with
  | nil => simp [List.takeWhile_cons_of_neg]
  | cons c s ih =>
    have hc := hs c (by simp)
    have hcd : c ≠ SChar.dot := by
      intro h
      rw [h] at hc
      simp [isDecDigit] at hc
    rw [List.cons_append, List.takeWhile_cons_of_pos (by simp [hcd])]
    rw [ih (fun x hx => hs x (by simp [hx]))]

lemma dropWhile_digits_dot (s t : List SChar) (hs : ∀ c ∈ s, isDecDigit c = true) :
    (s ++ SChar.dot :: t).dropWhile (fun c => !decide (c = SChar.dot)) = SChar.dot :: t := by
  induction s with
  | nil => simp [List.dropWhile_cons_of_neg]
  | cons c s ih =>
    have hc := hs c (by simp)
    have hcd : c ≠ SChar.dot := by
      intro h
      rw [h] at hc
      simp [isDecDigit] at hc
    rw [List.cons_append, List.dropWhile_cons_of_pos (by simp [hcd])]
    exact ih (fun x hx => hs x (by simp [hx]))

lemma countP_dot_digits (s : List SChar) (hs : ∀ c ∈ s, isDecDigit c = true) :
    s.countP (fun c => decide (c = SChar.dot)) = 0 := by
  rw [List.countP_eq_zero]
  intro c hc
  have := hs c hc
  intro hdot
  rw [decide_eq_true_eq] at hdot
  rw [hdot] at this
  simp [isDecDigit] at this

lemma countE_dec_dot (s : List SChar)
    (hs : ∀ c ∈ s, isDecDigit c = true ∨ c = SChar.dot) :
    s.countP isEChar = 0 := by
  rw [List.countP_eq_zero]
  intro c hc
  rcases hs c hc with h | h
  · cases c with
    | dot => simp [isEChar]
    | digit d =>
      simp only [isDecDigit, decide_eq_true_eq] at h
      simp [isEChar]
      omega
  · rw [h]
    simp [isEChar]

lemma not_dot_of_dec (c : SChar) (h : isDecDigit c = true) :
    (!decide (c = SChar.dot)) = true := by
  cases c with
  | dot => simp [isDecDigit] at h
  | digit d => simp

lemma mantissa_digits (s : List SChar) (hs : ∀ c ∈ s, isDecDigit c = true) (hne : s ≠ []) :
    mantissa s = some (digitsVal s : ℚ) := by
  unfold mantissa
  rw [if_pos]
  · have htw : s.takeWhile (fun c => !decide (c = SChar.dot)) = s :=
      List.takeWhile_eq_self_iff.mpr (fun c hc => not_dot_of_dec c (hs c hc))
    have hdw : s.dropWhile (fun c => !decide (c = SChar.dot)) = [] :=
      List.dropWhile_eq_nil_iff.mpr (fun c hc => not_dot_of_dec c (hs c hc))
    rw [htw, hdw]
    simp [digitsVal]
  · rw [Bool.and_eq_true, Bool.and_eq_true]
    refine ⟨⟨?_, ?_⟩, ?_⟩
    · rw [List.all_eq_true]
      intro c hc
      rw [Bool.or_eq_true]
      exact Or.inl (hs c hc)
    · rw [decide_eq_true_eq, countP_dot_digits s hs]
      omega
    · rw [List.any_eq_true]
      obtain ⟨c, hc⟩ := List.exists_mem_of_ne_nil s hne
      exact ⟨c, hc, hs c hc⟩

lemma mantissa_digits_dot (s t : List SChar) (hs : ∀ c ∈ s, isDecDigit c = true)
    (ht : ∀ c ∈ t, isDecDigit c = true) (hd : s ≠ [] ∨ t ≠ []) :
    mantissa (s ++ SChar.dot :: t)
      = some ((digitsVal s : ℚ) + (digitsVal t : ℚ) / 10 ^ t.length) := by
  unfold mantissa
  rw [if_pos]
  · rw [takeWhile_digits_dot s t hs, dropWhile_digits_dot s t hs]
    rfl
  · rw [Bool.and_eq_true, Bool.and_eq_true]
    refine ⟨⟨?_, ?_⟩, ?_⟩
    · rw [List.all_eq_true]
      intro c hc
      rw [Bool.or_eq_true]
      rcases List.mem_append.mp hc with h | h
      · exact Or.inl (hs c h)
      · rcases List.mem_cons.mp h with rfl | h
        · exact Or.inr (by simp)
        · exact Or.inl (ht c h)
    · rw [decide_eq_true_eq, List.countP_append, countP_dot_digits s hs,
        List.countP_cons_of_pos _ _ (by simp), countP_dot_digits t ht]
    · rw [List.any_eq_true]
      rcases hd with h | h
      · obtain ⟨c, hc⟩ := List.exists_mem_of_ne_nil s h
        exact ⟨c, List.mem_append.mpr (Or.inl hc), hs c hc⟩
      · obtain ⟨c, hc⟩ := List.exists_mem_of_ne_nil t h
        exact ⟨c, List.mem_append.mpr (Or.inr (List.mem_cons.mpr (Or.inr hc))), ht c hc⟩

lemma pyFloat_digits (s : List SChar) (hs : ∀ c ∈ s, isDecDigit c = true) (hne : s ≠ []) :
    pyFloat s = some (digitsVal s : ℚ) := by
  unfold pyFloat
  rw [countE_dec_dot s (fun c hc => Or.inl (hs c hc))]
  exact mantissa_digits s hs hne

lemma pyFloat_digits_dot (s t : List SChar) (hs : ∀ c ∈ s, isDecDigit c = true)
    (ht : ∀ c ∈ t, isDecDigit c = true) (hd : s ≠ [] ∨ t ≠ []) :
    pyFloat (s ++ SChar.dot :: t)
      = some ((digitsVal s : ℚ) + (digitsVal t : ℚ) / 10 ^ t.length) := by
  unfold pyFloat
  rw [countE_dec_dot]
  · exact mantissa_digits_dot s t hs ht hd
  · intro c hc
    rcases List.mem_append.mp hc with h | h
    · exact Or.inl (hs c h)
    · rcases List.mem_cons.mp h with rfl | h
      · exact Or.inr rfl
      · exact Or.inl (ht c h)

/-- C5 (amended): on non-empty all-BCD data, `decode_generic_bcd` never
returns `none`: when `0 < decimalPlaces ≤ digit count` (two digits per byte)
it inserts the point before the last `decimalPlaces` characters of the
reversed digit string and returns its value — also when the digit count
*equals* `decimalPlaces`, where the result is the pure fraction `.digits`
rather than the `none` the claim stated — and otherwise (`decimalPlaces = 0`
or more than the digit count) no point is inserted and the plain digit value
is returned. -/
theorem C5_generic_bcd (data : List Nat) (dp : Nat) (hne : data ≠ [])
    (hbcd : ∀ b ∈ data, b % 16 < 10 ∧ b / 16 < 10) :
    decode_generic_bcd data dp =
      if 0 < dp ∧ dp ≤ 2 * data.length then some ((bcdVal data : ℚ) / 10 ^ dp)
      else some (bcdVal data : ℚ) := by
  simp only [decode_generic_bcd]
  rw [if_neg hne]
  set s := renderBytes data with hsdef
  have hsdec : ∀ c ∈ s, isDecDigit c = true := renderBytes_all_dec data hbcd
  have hslen : s.length = 2 * data.length := renderBytes_length data
  have hdne : data.length ≠ 0 := by
    intro h
    exact hne (List.eq_nil_of_length_eq_zero h)
  have hsne : s ≠ [] := by
    intro h
    rw [h] at hslen
    simp only [List.length_nil] at hslen
    omega
  have hguard : ¬(s = [] ∨ s = [SChar.dot]) := by
    rintro (h | h)
    · exact hsne h
    · have := hsdec SChar.dot (by rw [h]; simp)
      simp [isDecDigit] at this
  by_cases hdp0 : 0 < dp
  · rw [if_pos hdp0]
    unfold insertDot
    by_cases hdple : dp ≤ s.length
    · rw [if_pos hdple]
      set s1 := s.take (s.length - dp) with hs1
      set s2 := s.drop (s.length - dp) with hs2
      have hs1dec : ∀ c ∈ s1, isDecDigit c = true :=
        fun c hc => hsdec c (List.mem_of_mem_take hc)
      have hs2dec : ∀ c ∈ s2, isDecDigit c = true :=
        fun c hc => hsdec c (List.mem_of_mem_drop hc)
      have hs2len : s2.length = dp := by
        rw [hs2, List.length_drop]
        omega
      have hs2ne : s2 ≠ [] := by
        intro h
        rw [h] at hs2len
        simp at hs2len
        omega
      have hcond : ¬(s1 ++ SChar.dot :: s2 = [] ∨ s1 ++ SChar.dot :: s2 = [SChar.dot]) := by
        rintro (h | h)
        · simp at h
        · have := congrArg List.length h
          simp at this
          omega
      rw [if_neg hcond, pyFloat_digits_dot s1 s2 hs1dec hs2dec (Or.inr hs2ne)]
      rw [if_pos ⟨hdp0, by omega⟩]
      have hval : bcdVal data = digitsVal s1 * 10 ^ dp + digitsVal s2 := by
        unfold bcdVal
        rw [← hsdef, show s = s1 ++ s2 from (List.take_append_drop _ s).symm,
          digitsVal_append_dec s1 s2 hs2dec, hs2len]
      rw [hval, hs2len]
      congr 1
      push_cast
      field_simp
    · rw [if_neg hdple]
      rw [if_neg (show ¬(0 < dp ∧ dp ≤ 2 * data.length) by omega)]
      rw [if_neg hguard, pyFloat_digits s hsdec hsne, hsdef]
      rfl
  · rw [if_neg hdp0]
    rw [if_neg (show ¬(0 < dp ∧ dp ≤ 2 * data.length) by omega)]
    rw [if_neg hguard, pyFloat_digits s hsdec hsne, hsdef]
    rfl

/-- C5 counterexample: for `data = [0x12]` and `decimalPlaces = 2` the digit
count (2) is equal to `decimalPlaces`, so the claim demands `none`; the code
builds the string `".12"` and `float` parses it as `0.12`. -/
theorem C5_cex_fraction : decode_generic_bcd [0x12] 2 = some ((12 : ℚ) / 100) := by
  simp +decide [decode_generic_bcd, insertDot, renderBytes, pyFloat, mantissa, digitsVal,
    isEChar]
  norm_num

/-- C5 witness: the amended theorem applied at a concrete BCD payload. -/
theorem C5_witness :
    decode_generic_bcd [0x12, 0x34] 2 =
      if 0 < 2 ∧ 2 ≤ 2 * ([0x12, 0x34] : List Nat).length then
        some ((bcdVal [0x12, 0x34] : ℚ) / 10 ^ 2)
      else some (bcdVal [0x12, 0x34] : ℚ) :=
  C5_generic_bcd [0x12, 0x34] 2 (by decide) (by decide)

lemma mem_insertDot (dp : Nat) (s : List SChar) (c : SChar) (h : c ∈ s) :
    c ∈ insertDot dp s := by
  unfold insertDot
  split
  · rw [← List.take_append_drop (s.length - dp) s] at h
    rcases List.mem_append.mp h with h | h
    · exact List.mem_append.mpr (Or.inl h)
    · exact List.mem_append.mpr (Or.inr (List.mem_cons.mpr (Or.inr h)))
  · exact h

lemma insertDot_chars (dp : Nat) (s : List SChar) (c : SChar) (h : c ∈ insertDot dp s) :
    c ∈ s ∨ c = SChar.dot := by
  unfold insertDot at h
  split at h
  · rcases List.mem_append.mp h with h | h
    · exact Or.inl (List.mem_of_mem_take h)
    · rcases List.mem_cons.mp h with h | h
      · exact Or.inr h
      · exact Or.inl (List.mem_of_mem_drop h)
  · exact Or.inl h

lemma mantissa_none_of_bad (s : List SChar) (e : Nat) (he : SChar.digit e ∈ s)
    (h10 : 10 ≤ e) : mantissa s = none := by
  unfold mantissa
  rw [if_neg]
  intro hcond
  rw [Bool.and_eq_true, Bool.and_eq_true, List.all_eq_true] at hcond
  have := hcond.1.1 _ he
  rw [Bool.or_eq_true, decide_eq_true_eq] at this
  rcases this with h | h
  · simp [isDecDigit] at h
    omega
  · exact absurd h (by simp)

lemma pyFloat_none_of_bad (s : List SChar) (e : Nat) (he : SChar.digit e ∈ s)
    (h10 : 10 ≤ e) (hE : s.countP isEChar = 0) : pyFloat s = none := by
  unfold pyFloat
  rw [hE]
  exact mantissa_none_of_bad s e he h10

/-- C6 (amended): every value decoder is total, returning a number or `none`
without raising: a payload shorter than the decoder's byte width yields
`none`, an empty payload yields `none` from the generic decoder, and a
payload containing a non-BCD nibble yields `none` — *except* that the nibble
`0xE` renders as the character `E`, which Python `float` can accept as a
scientific-notation exponent marker and so can produce a number instead
(`C6_cex_scientific`); the `none` guarantee therefore holds whenever no
nibble equals `0xE`. -/
theorem C6_decoders_soft_fail :
    (∀ data : List Nat, data.length < 4 → decode_energy data = none)
    ∧ (∀ data : List Nat, data.length < 2 → decode_voltage data = none)
    ∧ (∀ data : List Nat, data.length < 3 → decode_current data = none)
    ∧ (∀ data : List Nat, data.length < 3 → decode_power data = none)
    ∧ (∀ dp : Nat, decode_generic_bcd [] dp = none)
    ∧ (∀ (data : List Nat) (dp : Nat), (∀ b ∈ data, b < 256) →
        (∃ b ∈ data, ¬(b % 16 < 10 ∧ b / 16 < 10)) →
        (∀ b ∈ data, b % 16 ≠ 14 ∧ b / 16 ≠ 14) →
        decode_generic_bcd data dp = none) := by
  refine ⟨?_, ?_, ?_, ?_, ?_, ?_⟩
  · intro data h
    unfold decode_energy
    rw [if_pos h]
  · intro data h
    unfold decode_voltage
    rw [if_pos h]
  · intro data h
    unfold decode_current
    rw [if_pos h]
  · intro data h
    unfold decode_power
    rw [if_pos h]
  · intro dp
    rfl
  · intro data dp hbytes hbad hnoE
    obtain ⟨b, hb, hnb⟩ := hbad
    simp only [decode_generic_bcd]
    rw [if_neg (List.ne_nil_of_mem hb)]
    have hmem : ∃ e, 10 ≤ e ∧ SChar.digit e ∈ renderBytes data := by
      by_cases h1 : b % 16 < 10
      · have h2 : ¬ b / 16 < 10 := fun h2 => hnb ⟨h1, h2⟩
        refine ⟨b / 16, by omega, ?_⟩
        unfold renderBytes
        exact List.mem_flatMap.mpr ⟨b, List.mem_reverse.mpr hb, by simp⟩
      · refine ⟨b % 16, by omega, ?_⟩
        unfold renderBytes
        exact List.mem_flatMap.mpr ⟨b, List.mem_reverse.mpr hb, by simp⟩
    obtain ⟨e, he10, hem⟩ := hmem
    set t := (if 0 < dp then insertDot dp (renderBytes data) else renderBytes data)
      with htdef
    have hmt : SChar.digit e ∈ t := by
      rw [htdef]
      split
      · exact mem_insertDot dp _ _ hem
      · exact hem
    have hEt : t.countP isEChar = 0 := by
      rw [List.countP_eq_zero]
      intro c hc
      have hc2 : c ∈ renderBytes data ∨ c = SChar.dot := by
        rw [htdef] at hc
        split at hc
        · exact insertDot_chars dp _ c hc
        · exact Or.inl hc
      rcases hc2 with h | h
      · unfold renderBytes at h
        rw [List.mem_flatMap] at h
        obtain ⟨b2, hb2, hcb⟩ := h
        rw [List.mem_reverse] at hb2
        have hb2E := hnoE b2 hb2
        rcases List.mem_cons.mp hcb with rfl | hcb
        · simp [isEChar]
          omega
        · rcases List.mem_singleton.mp hcb with rfl
          simp [isEChar]
          omega
      · rw [h]
        simp [isEChar]
    have hguard : ¬(t = [] ∨ t = [SChar.dot]) := by
      rintro (h | h)
      · rw [h] at hmt
        simp at hmt
      · rw [h] at hmt
        simp at hmt
    rw [if_neg hguard]
    exact pyFloat_none_of_bad t e hmt he10 hEt

/-- C6 counterexample: the payload `[0xE1, 0x05]` contains non-BCD nibbles,
yet `decode_generic_bcd` returns `50.0` rather than `none` — the reversed
digit string is `"05E1"`, the point insertion makes `"05.E1"`, and Python
`float` parses it as scientific notation `5.0e1`. -/
theorem C6_cex_scientific : decode_generic_bcd [0xE1, 0x05] 2 = some 50 := by
  simp +decide [decode_generic_bcd, insertDot, renderBytes, pyFloat, mantissa, digitsVal,
    isEChar]
  norm_num

/-- C6 witness: the amended theorem applied at concrete payloads. -/
theorem C6_witness :
    decode_energy [0x12] = none ∧ decode_generic_bcd [0xAA] 2 = none :=
  ⟨C6_decoders_soft_fail.1 [0x12] (by decide),
   C6_decoders_soft_fail.2.2.2.2.2 [0xAA] 2 (by decide) (by decide) (by decide)⟩

example : decode_generic_bcd [0x1A] 2 = none := by decide
